import Mathlib

/-!
Verification of the pdf-converter-backend service against its specification.

The definitions below are a shallow embedding of the TypeScript sources:
  - src/middleware/dosProtection.ts  (complexity pre-scan, concurrency limiter)
  - src/services (app.ts parts): imageToPdf.service, pdfConverter.service
  - src/services/pdfToDocx.service (unnamed/part_006)
  - src/utils/fileValidator.ts
Buffers are modelled as `List Nat` (byte values), strings as Lean `String`,
PDF float coordinates as `ℚ`.  External libraries (pdf-lib, pdfjs-dist,
node-canvas) enter as explicit environment records of functions, so that the
service-level control flow — which is what the claims are about — is embedded
exactly.
-/

namespace PdfBackend

/-! ## Decimal rendering of naturals

JavaScript template literals render numbers in decimal; `natRepr` is that
decimal rendering.  It is fuel-based so that the kernel can evaluate it;
fuel `n + 1` always suffices because the digit count of `n` is at most
`n + 1`. -/

def natDigitsF : Nat → Nat → List Nat
  | 0, _ => []
  | f + 1, n => if n < 10 then [n] else natDigitsF f (n / 10) ++ [n % 10]

def natDigits (n : Nat) : List Nat :=
  natDigitsF (n + 1) n

def digitChar (d : Nat) : Char :=
  Char.ofNat (48 + d)

def natRepr (n : Nat) : String :=
  String.mk ((natDigits n).map digitChar)

def ofDigits (l : List Nat) : Nat :=
  l.foldl (fun a d => 10 * a + d) 0

theorem ofDigits_append_one (xs : List Nat) (d : Nat) :
    ofDigits (xs ++ [d]) = 10 * ofDigits xs + d := by
  simp [ofDigits, List.foldl_append]

theorem ofDigits_natDigitsF (f n : Nat) (h : n < f) :
    ofDigits (natDigitsF f n) = n := by
  induction f generalizing n with
  | zero => omega
  | succ f ih =>
    by_cases h10 : n < 10
    · simp [natDigitsF, h10, ofDigits]
    · have hdiv : n / 10 < n := Nat.div_lt_self (by omega) (by omega)
      have : ofDigits (natDigitsF f (n / 10)) = n / 10 := ih _ (by omega)
      simp only [natDigitsF, if_neg h10, ofDigits_append_one, this]
      omega

theorem ofDigits_natDigits (n : Nat) : ofDigits (natDigits n) = n :=
  ofDigits_natDigitsF (n + 1) n (Nat.lt_succ_self n)

theorem natDigits_injective : Function.Injective natDigits := by
  intro a b h
  have := congrArg ofDigits h
  rwa [ofDigits_natDigits, ofDigits_natDigits] at this

theorem natDigitsF_lt_ten (f n : Nat) : ∀ d ∈ natDigitsF f n, d < 10 := by
  induction f generalizing n with
  | zero => simp [natDigitsF]
  | succ f ih =>
    by_cases h10 : n < 10
    · intro d hd
      simp [natDigitsF, h10] at hd
      omega
    · simp only [natDigitsF, if_neg h10, List.mem_append, List.mem_singleton]
      rintro d (hd | rfl)
      · exact ih _ _ hd
      · omega

theorem natDigits_lt_ten (n : Nat) : ∀ d ∈ natDigits n, d < 10 :=
  natDigitsF_lt_ten (n + 1) n

theorem digitChar_toNat (d : Nat) (h : d < 10) : (digitChar d).toNat = 48 + d := by
  interval_cases d <;> rfl

theorem digitChar_inj (d e : Nat) (hd : d < 10) (he : e < 10)
    (h : digitChar d = digitChar e) : d = e := by
  have := congrArg Char.toNat h
  rw [digitChar_toNat d hd, digitChar_toNat e he] at this
  omega

theorem digitChar_ne_dot (d : Nat) (h : d < 10) : digitChar d ≠ '.' := by
  interval_cases d <;> decide

theorem map_digitChar_inj (l₁ l₂ : List Nat)
    (h₁ : ∀ d ∈ l₁, d < 10) (h₂ : ∀ d ∈ l₂, d < 10)
    (h : l₁.map digitChar = l₂.map digitChar) : l₁ = l₂ := by
  induction l₁ generalizing l₂ with
  | nil => cases l₂ <;> simp_all
  | cons a t ih =>
    cases l₂ with
    | nil => simp_all
    | cons b t' =>
      simp only [List.map_cons, List.cons.injEq] at h
      have ha : a = b := digitChar_inj a b (h₁ a (by simp)) (h₂ b (by simp)) h.1
      have ht : t = t' :=
        ih t' (fun d hd => h₁ d (by simp [hd])) (fun d hd => h₂ d (by simp [hd])) h.2
      rw [ha, ht]

theorem natRepr_injective : Function.Injective natRepr := by
  intro a b h
  have hdata : (natDigits a).map digitChar = (natDigits b).map digitChar := by
    have := congrArg String.data h
    simpa [natRepr] using this
  exact natDigits_injective
    (map_digitChar_inj _ _ (natDigits_lt_ten a) (natDigits_lt_ten b) hdata)

theorem natRepr_no_dot (n : Nat) : '.' ∉ (natRepr n).data := by
  intro hmem
  simp only [natRepr] at hmem
  rcases List.mem_map.mp hmem with ⟨d, hd, hEq⟩
  exact digitChar_ne_dot d (natDigits_lt_ten n d hd) hEq

theorem str_data_append (a b : String) : (a ++ b).data = a.data ++ b.data := rfl

/-! ## dosProtection.ts — `validatePdfComplexity`

The validator decodes at most the leading 1MB of the buffer
(`toString('utf8', 0, min(len, 1MB))`), counts matches of the regex pattern
slash-Type whitespace* slash-Page [not-s], reads the first
slash-Count whitespace+ digits+ metadata field, takes the larger of the two
estimates and rejects when it exceeds `maxPages`.  The regex scan is embedded
as a left-to-right non-overlapping matcher — the semantics of a global JS
regex match — operating directly on the byte values: every byte the patterns
and character classes mention is ASCII, where the utf8 decode is the
identity. -/

/-- JS whitespace class restricted to its ASCII members (space, tab, lf, cr,
vtab, formfeed), as byte values. -/
def isJsWhitespace (b : Nat) : Bool :=
  b == 32 || b == 9 || b == 10 || b == 13 || b == 11 || b == 12

/-- Byte values of "/Type". -/
def typeLit : List Nat := [47, 84, 121, 112, 101]

/-- Byte values of "/Page". -/
def pageLit : List Nat := [47, 80, 97, 103, 101]

/-- Byte values of "/Count". -/
def countLit : List Nat := [47, 67, 111, 117, 110, 116]

def matchLit : List Nat → List Nat → Option (List Nat)
  | [], l => some l
  | _ :: _, [] => none
  | p :: ps, c :: cs => if c == p then matchLit ps cs else none

def skipWs : List Nat → List Nat
  | [] => []
  | c :: cs => if isJsWhitespace c then skipWs cs else c :: cs

def matchPageMarker (l : List Nat) : Option (List Nat) :=
  match matchLit typeLit l with
  | none => none
  | some r =>
    match matchLit pageLit (skipWs r) with
    | none => none
    | some r2 =>
      match r2 with
      | [] => none
      | c :: rest => if c == 115 then none else some rest

/-- Tail-recursive list length (JS `.length`); written with an accumulator so
that the kernel can evaluate long concrete buffers iteratively. -/
def listLen {α : Type} : List α → Nat → Nat
  | [], acc => acc
  | _ :: l, acc => listLen l (acc + 1)

def countPageMarkersF : Nat → List Nat → Nat → Nat
  | 0, _, acc => acc
  | f + 1, l, acc =>
    match l with
    | [] => acc
    | _ :: rest =>
      match matchPageMarker l with
      | some r => countPageMarkersF f r (acc + 1)
      | none => countPageMarkersF f rest acc

def countPageMarkers (l : List Nat) : Nat :=
  countPageMarkersF (listLen l 0) l 0

def isDigitByte (b : Nat) : Bool :=
  48 ≤ b && b ≤ 57

def takeDigits : List Nat → List Nat × List Nat
  | [] => ([], [])
  | c :: cs =>
    if isDigitByte c then
      let p := takeDigits cs
      (c :: p.1, p.2)
    else ([], c :: cs)

def parseDigits (l : List Nat) : Nat :=
  l.foldl (fun a c => 10 * a + (c - 48)) 0

def matchCountAt (l : List Nat) : Option Nat :=
  match matchLit countLit l with
  | none => none
  | some r =>
    let ws := r.takeWhile (fun c => isJsWhitespace c)
    if ws.isEmpty then none
    else
      let ds := (takeDigits (r.dropWhile (fun c => isJsWhitespace c))).1
      if ds.isEmpty then none else some (parseDigits ds)

def findCountMarker : List Nat → Option Nat
  | [] => none
  | c :: rest =>
    match matchCountAt (c :: rest) with
    | some n => some n
    | none => findCountMarker rest

structure ComplexityResult where
  valid : Bool
  pageCount : Option Nat
  errMsg : Option String
deriving DecidableEq

/-- The scanned window: the leading `min(len, 1MB)` bytes. -/
def bytesToContent (buf : List Nat) : List Nat :=
  buf.take (min (listLen buf 0) 1048576)

def validatePdfComplexity (pdfBuffer : List Nat) (maxPages : Nat) : ComplexityResult :=
  if listLen pdfBuffer 0 < 5 then
    ⟨false, none, some "File too small to be a valid PDF"⟩
  else
    let content := bytesToContent pdfBuffer
    let markerCount := countPageMarkers content
    let estimatedPages := if markerCount = 0 then 1 else markerCount
    let metadataPageCount := (findCountMarker content).getD 0
    let pageCount := max estimatedPages metadataPageCount
    if maxPages < pageCount then
      ⟨false, some pageCount,
        some ("PDF has too many pages (" ++ natRepr pageCount ++ "). Maximum allowed is "
          ++ natRepr maxPages ++ " pages.")⟩
    else ⟨true, some pageCount, none⟩

/-! ## Middleware wiring

`dosProtection` (dosProtection.ts) returns the array
`[payloadSizeLimiter, concurrentRequestLimiter, requestTimeout]`; the app
(app.ts) mounts helmet, cors, `dosProtection`, and the rate limiter in that
order, and each route in pdf.routes.ts adds its own upload / validation /
handler chain.  `pdfComplexityMiddleware` exists in dosProtection.ts but the
step lists below are a transcription of every `app.use` / route registration
in the sources. -/

inductive MiddlewareStep
  | helmetSec
  | corsSec
  | rateLimit
  | payloadSizeLimiter
  | concurrentRequestLimiter
  | requestTimeoutGuard
  | pdfComplexityCheck
  | uploadSinglePdf
  | imageUploadArray
  | validatePdfUploadStep
  | validateImageUploadsStep
  | convertHandler
  | extractHandler
  | imagesToPdfHandler
  | pdfToDocxHandler
deriving DecidableEq

def dosProtectionChain : List MiddlewareStep :=
  [.payloadSizeLimiter, .concurrentRequestLimiter, .requestTimeoutGuard]

def appLevelChain : List MiddlewareStep :=
  [.helmetSec, .corsSec] ++ dosProtectionChain ++ [.rateLimit]

def convertRouteChain : List MiddlewareStep :=
  [.uploadSinglePdf, .validatePdfUploadStep, .convertHandler]

def extractRouteChain : List MiddlewareStep :=
  [.uploadSinglePdf, .validatePdfUploadStep, .extractHandler]

def imagesToPdfRouteChain : List MiddlewareStep :=
  [.imageUploadArray, .validateImageUploadsStep, .imagesToPdfHandler]

def pdfToDocxRouteChain : List MiddlewareStep :=
  [.uploadSinglePdf, .validatePdfUploadStep, .pdfToDocxHandler]

def fullPipeline (route : List MiddlewareStep) : List MiddlewareStep :=
  appLevelChain ++ route

/-- Byte values of "/Type /Page " (a page-marker pattern followed by a
non-`s` byte). -/
def markerBytes : List Nat := [47, 84, 121, 112, 101, 32, 47, 80, 97, 103, 101, 32]

def repBytes : Nat → List Nat
  | 0 => []
  | n + 1 => markerBytes ++ repBytes n

/-- A crafted buffer holding 150 page-marker patterns. -/
def pdfBuffer150 : List Nat :=
  repBytes 150

/-! ## dosProtection.ts — `concurrentRequestLimiter`

The limiter keeps a module-level `Map` from client IP to active count.  On a
request it reads the count (`get(ip) || 0`); at or above the cap it rejects
without registering anything; otherwise it stores `count + 1` and registers
the same non-idempotent `cleanup` closure on both the response's `finish` and
`close` events.  `cleanup` re-reads the count and deletes the entry when it is
≤ 1, else stores `count − 1`.  The state machine below replays a sequence of
request arrivals and termination-event deliveries; `active` tracks which
admitted requests have not yet seen any termination event (the quantity the
claim compares the stored count against), and `handlers` records the requests
whose cleanup closures are registered. -/

def mapGet (m : List (String × Nat)) (k : String) : Nat :=
  (m.lookup k).getD 0

def mapSet (m : List (String × Nat)) (k : String) (v : Nat) : List (String × Nat) :=
  (k, v) :: m.filter (fun p => !(p.1 == k))

def mapDelete (m : List (String × Nat)) (k : String) : List (String × Nat) :=
  m.filter (fun p => !(p.1 == k))

inductive TermEvent
  | finish
  | close
deriving DecidableEq

inductive LimiterAction
  | request (ip : String) (id : Nat)
  | emit (id : Nat) (ev : TermEvent)

structure LimiterState where
  counts : List (String × Nat)
  active : List (Nat × String)
  handlers : List (Nat × String)
deriving DecidableEq

def initialLimiterState : LimiterState :=
  ⟨[], [], []⟩

/-- The `cleanup` closure of `concurrentRequestLimiter`. -/
def limiterCleanup (ip : String) (m : List (String × Nat)) : List (String × Nat) :=
  let count := mapGet m ip
  if count ≤ 1 then mapDelete m ip else mapSet m ip (count - 1)

def limiterStep (maxConcurrent : Nat) (s : LimiterState) : LimiterAction → LimiterState
  | .request ip id =>
    let currentCount := mapGet s.counts ip
    if maxConcurrent ≤ currentCount then s
    else
      { counts := mapSet s.counts ip (currentCount + 1)
        active := s.active ++ [(id, ip)]
        handlers := s.handlers ++ [(id, ip)] }
  | .emit id _ =>
    match s.handlers.lookup id with
    | none => s
    | some ip =>
      { counts := limiterCleanup ip s.counts
        active := s.active.filter (fun p => !(p.1 == id))
        handlers := s.handlers }

def limiterRun (maxConcurrent : Nat) (acts : List LimiterAction) : LimiterState :=
  acts.foldl (limiterStep maxConcurrent) initialLimiterState

/-- Number of still-active admitted requests of a given client. -/
def activeOf (s : LimiterState) (ip : String) : Nat :=
  (s.active.filter (fun p => p.2 == ip)).length

/-- Trace: client "c" gets two requests admitted; the first completes
normally, which on the Node runtime this service requires (≥ 18) delivers a
`finish` event followed by a `close` event to the same response. -/
def doubleCleanupTrace : List LimiterAction :=
  [.request "c" 1, .request "c" 2, .emit 1 .finish, .emit 1 .close]

/-! ## pdfConverter.service — Image Codec Bridge (`convertImageObjToBuffer`)

An embedded image resource is `{width, height, kind?, data?}`.  When the
resource has a `data` field, its `kind` equals `1` and the data begins with
the JPEG start-of-image marker `FF D8`, the raw bytes pass through with tag
`jpg`.  Otherwise the pixel copy loop fills a zero-initialised RGBA surface
(alpha defaulting to 255 where the source row is 3 bytes short) and the
surface is PNG-encoded.  Canvas creation and PNG encoding are external
(node-canvas); encoding enters as the environment function `encodePng` and
canvas creation is modelled as infallible. -/

structure ImageObj where
  width : Nat
  height : Nat
  kind : Option Nat
  data : Option (List Nat)

structure CanvasEnv where
  encodePng : Nat → Nat → List Nat → Except String (List Nat)

def srcAt (src : List Nat) (i : Nat) : Nat :=
  src.getD i 0

def setAt (l : List Nat) (i : Nat) (v : Nat) : List Nat :=
  if i < l.length then l.set i v else l

def copyLoopF : Nat → List Nat → List Nat → Nat → List Nat
  | 0, _, dst, _ => dst
  | f + 1, src, dst, i =>
    if i < src.length then
      let d0 := setAt dst i (srcAt src i)
      let d1 := setAt d0 (i + 1) (srcAt src (i + 1))
      let d2 := setAt d1 (i + 2) (srcAt src (i + 2))
      let d3 := setAt d2 (i + 3) (if i + 3 < src.length then srcAt src (i + 3) else 255)
      copyLoopF f src d3 (i + 4)
    else dst

def copyPixels (src : Option (List Nat)) (w h : Nat) : List Nat :=
  let dst := List.replicate (w * h * 4) 0
  match src with
  | none => dst
  | some s => copyLoopF s.length s dst 0

/-- The `data[0] === 0xff && data[1] === 0xd8` test (out-of-range typed-array
reads are `undefined`, which fails the comparison). -/
def jpegSoiCheck (d : List Nat) : Bool :=
  d.getD 0 0 == 255 && d.getD 1 0 == 216

def convertImageObjToBuffer (env : CanvasEnv) (o : ImageObj) :
    Except String (List Nat × String) :=
  if o.data.isSome && o.kind == some 1 && jpegSoiCheck (o.data.getD []) then
    .ok (o.data.getD [], "jpg")
  else
    match env.encodePng o.width o.height (copyPixels o.data o.width o.height) with
    | .ok png => .ok (png, "png")
    | .error e => .error ("Failed to convert image object: " ++ e)

/-- Identity PNG encoder: a concrete canvas environment for witnesses. -/
def cEnvId : CanvasEnv :=
  ⟨fun _ _ px => .ok px⟩

/-! ## pdfConverter.service — text extraction (`extractTextFromPage`)

Positioned text fragments carry a string and the baseline Y coordinate
`transform[5]`; other content items have no `str` field and are skipped.
`lastY` starts at the sentinel `-1`; a line break is appended when
`lastY !== -1 && Math.abs(lastY - y) > 5`. -/

inductive TextItem
  | strItem (s : String) (transformY : ℚ)
  | markedContent

def extractTextGo : List TextItem → String → ℚ → String
  | [], acc, _ => acc
  | .markedContent :: rest, acc, lastY => extractTextGo rest acc lastY
  | .strItem s y :: rest, acc, lastY =>
    let acc2 := if lastY ≠ -1 ∧ |lastY - y| > 5 then acc ++ "\n" else acc
    extractTextGo rest (acc2 ++ s) y

def extractTextFromPage (items : List TextItem) : String :=
  extractTextGo items "" (-1)

/-- Modelled from the spec: insert a line break between consecutive fragments
exactly when the absolute vertical delta exceeds the threshold 5; the
continuation after a fragment at height `y0`. -/
def extractTextSpecFrom (y0 : ℚ) : List (String × ℚ) → String
  | [] => ""
  | (s, y) :: rest => (if |y0 - y| > 5 then "\n" else "") ++ s ++ extractTextSpecFrom y rest

/-- Modelled from the spec: the whole fragment list. -/
def extractTextSpec : List (String × ℚ) → String
  | [] => ""
  | (s, y) :: rest => s ++ extractTextSpecFrom y rest

theorem extractTextGo_spec (frags : List (String × ℚ)) :
    ∀ (acc : String) (y0 : ℚ), y0 ≠ -1 → (∀ p ∈ frags, p.2 ≠ -1) →
      extractTextGo (frags.map (fun p => TextItem.strItem p.1 p.2)) acc y0 =
        acc ++ extractTextSpecFrom y0 frags := by
  induction frags with
  | nil => intro acc y0 _ _; simp [extractTextGo, extractTextSpecFrom]
  | cons p rest ih =>
    intro acc y0 hy0 hall
    obtain ⟨s, y⟩ := p
    have hy : y ≠ -1 := hall (s, y) (by simp)
    have hrest : ∀ q ∈ rest, q.2 ≠ -1 := fun q hq => hall q (by simp [hq])
    simp only [List.map_cons, extractTextGo, extractTextSpecFrom]
    rw [ih _ y hy hrest]
    by_cases hgt : |y0 - y| > 5
    · simp [hy0, hgt, String.append_assoc]
    · simp [hgt, String.append_assoc]

end PdfBackend

namespace PdfBackend

/-- C3 (counterexample): a resource whose raw bytes begin with the JPEG
start-of-image marker `FF D8` but whose `kind` field is `3` is not passed
through: it takes the canvas re-encode path and comes back with format tag
`"png"`, not `"jpg"`. -/
theorem C3_kind_gate_counterexample :
    convertImageObjToBuffer cEnvId ⟨1, 1, some 3, some [255, 216, 255, 224]⟩ =
      .ok ([255, 216, 255, 224], "png")
    ∧ jpegSoiCheck [255, 216, 255, 224] = true
    ∧ ("png" : String) ≠ "jpg" := by
  refine ⟨rfl, rfl, by decide⟩

/-- C3 (amended): the JPEG passthrough holds only for resources that also
carry `kind = 1`: when the resource has raw data, `kind = 1` and the data
begins with `FF D8`, the result is the byte-identical payload with format tag
`"jpg"` and no re-encode, for every canvas environment. -/
theorem C3_jpeg_passthrough_kind1 (env : CanvasEnv) (o : ImageObj) (d : List Nat)
    (hdata : o.data = some d) (hkind : o.kind = some 1)
    (hsoi : jpegSoiCheck d = true) :
    convertImageObjToBuffer env o = .ok (d, "jpg") := by
  simp [convertImageObjToBuffer, hdata, hkind, hsoi]

/-- C3 witness: the amended passthrough at a concrete JPEG-marked resource. -/
theorem C3_jpeg_passthrough_kind1_witness :
    (⟨1, 1, some 1, some [255, 216, 255, 224]⟩ : ImageObj).data = some [255, 216, 255, 224]
    ∧ jpegSoiCheck [255, 216, 255, 224] = true
    ∧ convertImageObjToBuffer cEnvId ⟨1, 1, some 1, some [255, 216, 255, 224]⟩ =
        .ok ([255, 216, 255, 224], "jpg") :=
  ⟨rfl, rfl, C3_jpeg_passthrough_kind1 cEnvId _ [255, 216, 255, 224] rfl rfl rfl⟩

/-- C4 (counterexample): two consecutive fragments at baselines -1 and 120
have vertical delta 121 > 5, yet no line break is inserted between them — the
previous fragment's Y collides with the `lastY = -1` sentinel, so the
exactly-when characterisation of the claim fails at this input. -/
theorem C4_sentinel_counterexample :
    extractTextFromPage [.strItem "a" (-1), .strItem "b" 120] = "ab"
    ∧ extractTextSpec [("a", -1), ("b", 120)] = "a\nb"
    ∧ |(-1 : ℚ) - 120| > 5
    ∧ ("ab" : String) ≠ "a\nb" := by
  refine ⟨?_, ?_, by norm_num, by decide⟩
  · simp [extractTextFromPage, extractTextGo]
  · have h : |(-1 : ℚ) - 120| > 5 := by norm_num
    simp [extractTextSpec, extractTextSpecFrom, h]

/-- C4 (amended): as long as no fragment sits at the sentinel baseline -1,
`extractTextFromPage` inserts a line break between two consecutive positioned
fragments exactly when the absolute baseline delta exceeds 5 and otherwise
concatenates with no separator (it equals the spec-side rendering); in
particular fragments at Y=100.0 and Y=100.2 merge into one line while
fragments at Y=100 and Y=120 produce two lines. -/
theorem C4_line_break_threshold :
    (∀ frags : List (String × ℚ), (∀ p ∈ frags, p.2 ≠ -1) →
      extractTextFromPage (frags.map (fun p => TextItem.strItem p.1 p.2)) =
        extractTextSpec frags)
    ∧ extractTextFromPage [.strItem "a" 100, .strItem "b" (501 / 5)] = "ab"
    ∧ extractTextFromPage [.strItem "a" 100, .strItem "b" 120] = "a\nb" := by
  refine ⟨?_, ?_, ?_⟩
  · intro frags hall
    match frags with
    | [] => simp [extractTextFromPage, extractTextGo, extractTextSpec]
    | (s, y) :: rest =>
      have hy : y ≠ -1 := hall (s, y) (by simp)
      have hrest : ∀ q ∈ rest, q.2 ≠ -1 := fun q hq => hall q (by simp [hq])
      simp only [List.map_cons, extractTextFromPage, extractTextGo, extractTextSpec]
      rw [extractTextGo_spec rest _ y hy hrest]
      simp
  · have h : ¬ |(100 : ℚ) - 501 / 5| > 5 := by
      rw [not_lt, abs_le]
      norm_num
    simp [extractTextFromPage, extractTextGo, h]
  · have h : |(100 : ℚ) - 120| > 5 := by norm_num
    simp [extractTextFromPage, extractTextGo, h]
    rfl

/-! ## imageToPdf.service.ts — Reverse Composer

`convertImagesToPdf` throws on an empty list, then embeds each image in
order.  Per image, `addImageToPdf` dispatches on the MIME type (`embedPng` /
`embedJpg`, unsupported types throw), wraps any embed failure as
`Failed to embed image: …`, creates a page whose dimensions are the embedded
image's intrinsic `scale(1)` size and draws the image at the origin filling
the page.  The loop wraps a per-image failure as
`Failed to process image {i+1} ({name}): …` and aborts.  pdf-lib's decoders
enter as the environment `PdfLibEnv` returning the intrinsic pixel size. -/

structure ImageData where
  buffer : List Nat
  mimetype : String
  originalname : String
deriving DecidableEq

structure PdfLibEnv where
  decodePng : List Nat → Except String (Nat × Nat)
  decodeJpg : List Nat → Except String (Nat × Nat)

structure ComposedPage where
  width : Nat
  height : Nat
  drawX : Nat
  drawY : Nat
  drawW : Nat
  drawH : Nat
deriving DecidableEq

structure ComposedPdf where
  pages : List ComposedPage
deriving DecidableEq

def isOkE {ε α : Type} : Except ε α → Bool
  | .ok _ => true
  | .error _ => false

def embedImage (env : PdfLibEnv) (img : ImageData) : Except String (Nat × Nat) :=
  if img.mimetype = "image/png" then env.decodePng img.buffer
  else if img.mimetype = "image/jpeg" then env.decodeJpg img.buffer
  else .error ("Unsupported image format: " ++ img.mimetype ++ ". Only PNG and JPEG are supported.")

def addImageToPdf (env : PdfLibEnv) (doc : ComposedPdf) (img : ImageData) :
    Except String ComposedPdf :=
  match embedImage env img with
  | .error e => .error ("Failed to embed image: " ++ e)
  | .ok (w, h) => .ok ⟨doc.pages ++ [⟨w, h, 0, 0, w, h⟩]⟩

def processErrMsg (n : Nat) (name msg : String) : String :=
  "Failed to process image " ++ natRepr n ++ " (" ++ name ++ "): " ++ msg

def processImages (env : PdfLibEnv) : ComposedPdf → List ImageData → Nat →
    Except String ComposedPdf
  | doc, [], _ => .ok doc
  | doc, img :: rest, i =>
    match addImageToPdf env doc img with
    | .ok d => processImages env d rest (i + 1)
    | .error e => .error (processErrMsg (i + 1) img.originalname e)

def convertImagesToPdf (env : PdfLibEnv) (images : List ImageData) :
    Except String ComposedPdf :=
  if images.length = 0 then .error "At least one image is required"
  else processImages env ⟨[]⟩ images 0

/-! `ImageToPdfService.validateImages` and the `/images-to-pdf` route, which
runs it before `convertImagesToPdf`. -/

def isValidImageFormat (mimetype : String) : Bool :=
  mimetype == "image/png" || mimetype == "image/jpeg"

def unsupportedFormatMsg (n : Nat) (name mimetype : String) : String :=
  "Image " ++ natRepr n ++ " (" ++ name ++ ") has unsupported format: " ++ mimetype

def validateImagesGo : List ImageData → Nat → Except String Unit
  | [], _ => .ok ()
  | img :: rest, i =>
    if img.buffer.length = 0 then
      .error ("Image " ++ natRepr (i + 1) ++ " has no data")
    else if ¬ isValidImageFormat img.mimetype then
      .error (unsupportedFormatMsg (i + 1) img.originalname img.mimetype)
    else validateImagesGo rest (i + 1)

def validateImages (images : List ImageData) : Except String Unit :=
  if images.length = 0 then .error "At least one image is required"
  else validateImagesGo images 0

def imagesToPdfCall (env : PdfLibEnv) (images : List ImageData) :
    Except String ComposedPdf :=
  match validateImages images with
  | .error e => .error e
  | .ok _ => convertImagesToPdf env images

/-- Intrinsic size the environment decodes an image to (meaningful when the
embed succeeds). -/
def embedDims (env : PdfLibEnv) (img : ImageData) : Nat × Nat :=
  (embedImage env img).toOption.getD (0, 0)

def mkComposedPage (wh : Nat × Nat) : ComposedPage :=
  ⟨wh.1, wh.2, 0, 0, wh.1, wh.2⟩

theorem processImages_all_ok (env : PdfLibEnv) (imgs : List ImageData) :
    ∀ (acc : List ComposedPage) (i : Nat),
      (∀ img ∈ imgs, isOkE (embedImage env img) = true) →
      processImages env ⟨acc⟩ imgs i =
        .ok ⟨acc ++ imgs.map (fun img => mkComposedPage (embedDims env img))⟩ := by
  induction imgs with
  | nil => intro acc i _; simp [processImages]
  | cons img rest ih =>
    intro acc i hall
    have hok := hall img (by simp)
    cases hemb : embedImage env img with
    | error e => rw [hemb] at hok; simp [isOkE] at hok
    | ok wh =>
      obtain ⟨w, h⟩ := wh
      have hrest : ∀ q ∈ rest, isOkE (embedImage env q) = true :=
        fun q hq => hall q (by simp [hq])
      have hstep := ih (acc ++ [⟨w, h, 0, 0, w, h⟩]) (i + 1) hrest
      simp only [processImages, addImageToPdf, hemb, hstep]
      simp [embedDims, hemb, mkComposedPage, Except.toOption]

/-- C5: on a non-empty list of images each of which the environment can
decode, the composer returns one page per input image in input order, each
page sized exactly to that image's intrinsic pixel dimensions with the image
drawn at the origin filling the whole page. -/
theorem C5_one_page_per_image (env : PdfLibEnv) (images : List ImageData)
    (hne : images ≠ [])
    (hdec : ∀ img ∈ images, isOkE (embedImage env img) = true) :
    convertImagesToPdf env images =
      .ok ⟨images.map (fun img => mkComposedPage (embedDims env img))⟩ := by
  have hlen : images.length ≠ 0 := fun h => hne (List.length_eq_zero.mp h)
  simp only [convertImagesToPdf, if_neg hlen]
  exact processImages_all_ok env images [] 0 hdec

/-- Concrete pdf-lib environment for witnesses: decodes the intrinsic size
out of the first two buffer entries. -/
def pEnvHead : PdfLibEnv :=
  ⟨fun b => .ok (b.getD 0 0, b.getD 1 0), fun b => .ok (b.getD 0 0, b.getD 1 0)⟩

def imgA : ImageData := ⟨[300, 200], "image/png", "a.png"⟩

def imgB : ImageData := ⟨[150, 150], "image/jpeg", "b.jpg"⟩

/-- C5 witness: a 300×200 PNG followed by a 150×150 JPEG yield a two-page
document with page sizes 300×200 then 150×150, in that order. -/
theorem C5_one_page_per_image_witness :
    ([imgA, imgB] ≠ ([] : List ImageData))
    ∧ (∀ img ∈ [imgA, imgB], isOkE (embedImage pEnvHead img) = true)
    ∧ convertImagesToPdf pEnvHead [imgA, imgB] =
        .ok ⟨[⟨300, 200, 0, 0, 300, 200⟩, ⟨150, 150, 0, 0, 150, 150⟩]⟩ :=
  ⟨by decide, by decide, C5_one_page_per_image pEnvHead [imgA, imgB] (by decide) (by decide)⟩

/-- Buffer non-empty and MIME type supported: the per-image conditions
`validateImages` checks. -/
def goodInput (img : ImageData) : Bool :=
  decide (img.buffer.length ≠ 0) && isValidImageFormat img.mimetype

theorem goodInput_parts (img : ImageData) (h : goodInput img = true) :
    img.buffer.length ≠ 0 ∧ isValidImageFormat img.mimetype = true := by
  simp only [goodInput, Bool.and_eq_true, decide_eq_true_eq] at h
  exact h

theorem validateImagesGo_all_ok (imgs : List ImageData) :
    ∀ i, (∀ img ∈ imgs, goodInput img = true) → validateImagesGo imgs i = .ok () := by
  induction imgs with
  | nil => intro i _; rfl
  | cons img rest ih =>
    intro i hall
    obtain ⟨hbuf, hfmt⟩ := goodInput_parts img (hall img (by simp))
    simp only [validateImagesGo, if_neg hbuf]
    rw [if_neg (by simp [hfmt])]
    exact ih (i + 1) (fun q hq => hall q (by simp [hq]))

theorem validateImagesGo_first_bad (imgs : List ImageData) :
    ∀ (i k : Nat) (hk : k < imgs.length),
      (∀ (j : Nat) (hj : j < k), goodInput (imgs.get ⟨j, hj.trans hk⟩) = true) →
      (imgs.get ⟨k, hk⟩).buffer.length ≠ 0 →
      isValidImageFormat (imgs.get ⟨k, hk⟩).mimetype = false →
      validateImagesGo imgs i =
        .error (unsupportedFormatMsg (i + k + 1) (imgs.get ⟨k, hk⟩).originalname
          (imgs.get ⟨k, hk⟩).mimetype) := by
  induction imgs with
  | nil => intro i k hk; exact absurd hk (Nat.not_lt_zero k)
  | cons img rest ih =>
    intro i k hk hgood hbuf hfmt
    cases k with
    | zero =>
      simp only [List.get] at hbuf hfmt ⊢
      simp only [validateImagesGo, if_neg hbuf]
      rw [if_pos (by simp [hfmt])]
    | succ k =>
      obtain ⟨hbuf0, hfmt0⟩ := goodInput_parts img (hgood 0 (Nat.succ_pos k))
      simp only [List.get] at hbuf0 hfmt0 hbuf hfmt ⊢
      simp only [validateImagesGo, if_neg hbuf0]
      rw [if_neg (by simp [hfmt0])]
      have hk' : k < rest.length := Nat.lt_of_succ_lt_succ hk
      have hgood' : ∀ (j : Nat) (hj : j < k), goodInput (rest.get ⟨j, hj.trans hk'⟩) = true :=
        fun j hj => hgood (j + 1) (Nat.succ_lt_succ hj)
      have := ih (i + 1) k hk' hgood' hbuf hfmt
      rw [this, show i + 1 + k + 1 = i + (k + 1) + 1 by omega]

theorem processImages_first_fail (env : PdfLibEnv) (imgs : List ImageData) :
    ∀ (doc : ComposedPdf) (i k : Nat) (hk : k < imgs.length) (e : String),
      (∀ (j : Nat) (hj : j < k), isOkE (embedImage env (imgs.get ⟨j, hj.trans hk⟩)) = true) →
      embedImage env (imgs.get ⟨k, hk⟩) = .error e →
      processImages env doc imgs i =
        .error (processErrMsg (i + k + 1) (imgs.get ⟨k, hk⟩).originalname
          ("Failed to embed image: " ++ e)) := by
  induction imgs with
  | nil => intro doc i k hk; exact absurd hk (Nat.not_lt_zero k)
  | cons img rest ih =>
    intro doc i k hk e hprev hfail
    cases k with
    | zero =>
      simp only [List.get] at hfail ⊢
      simp [processImages, addImageToPdf, hfail]
    | succ k =>
      have hok0 := hprev 0 (Nat.succ_pos k)
      simp only [List.get] at hok0 hfail ⊢
      cases hemb : embedImage env img with
      | error e0 => rw [hemb] at hok0; simp [isOkE] at hok0
      | ok wh =>
        obtain ⟨w, h⟩ := wh
        have hk' : k < rest.length := Nat.lt_of_succ_lt_succ hk
        have hprev' : ∀ (j : Nat) (hj : j < k),
            isOkE (embedImage env (rest.get ⟨j, hj.trans hk'⟩)) = true :=
          fun j hj => hprev (j + 1) (Nat.succ_lt_succ hj)
        simp only [processImages, addImageToPdf, hemb]
        have := ih ⟨doc.pages ++ [⟨w, h, 0, 0, w, h⟩]⟩ (i + 1) k hk' e hprev' hfail
        rw [this, show i + 1 + k + 1 = i + (k + 1) + 1 by omega]

/-- C6: error behaviour of the reverse composition call.  (1) An empty input
set is rejected (both at the service and through the route that validates
first).  (2) With non-empty buffers, a first input whose MIME type is neither
PNG nor JPEG makes the call fail with the index-qualified unsupported-format
message.  (3) With all inputs well-formed, a first embed failure aborts the
whole call with the index-qualified process-failure message — the `Except`
result carries no document, so no partially composed document is returned. -/
theorem C6_composer_error_paths (env : PdfLibEnv) :
    (imagesToPdfCall env [] = .error "At least one image is required"
      ∧ convertImagesToPdf env [] = .error "At least one image is required")
    ∧ (∀ (images : List ImageData) (k : Nat) (hk : k < images.length),
        (∀ img ∈ images, img.buffer.length ≠ 0) →
        (∀ (j : Nat) (hj : j < k),
          isValidImageFormat ((images.get ⟨j, hj.trans hk⟩)).mimetype = true) →
        isValidImageFormat ((images.get ⟨k, hk⟩)).mimetype = false →
        imagesToPdfCall env images =
          .error (unsupportedFormatMsg (k + 1) (images.get ⟨k, hk⟩).originalname
            (images.get ⟨k, hk⟩).mimetype))
    ∧ (∀ (images : List ImageData) (k : Nat) (hk : k < images.length) (e : String),
        (∀ img ∈ images, goodInput img = true) →
        (∀ (j : Nat) (hj : j < k),
          isOkE (embedImage env (images.get ⟨j, hj.trans hk⟩)) = true) →
        embedImage env (images.get ⟨k, hk⟩) = .error e →
        imagesToPdfCall env images =
          .error (processErrMsg (k + 1) (images.get ⟨k, hk⟩).originalname
            ("Failed to embed image: " ++ e))) := by
  refine ⟨⟨rfl, rfl⟩, ?_, ?_⟩
  · intro images k hk hbufs hprev hbad
    have hlen : images.length ≠ 0 := Nat.pos_iff_ne_zero.mp (Nat.lt_of_le_of_lt (Nat.zero_le k) hk)
    have hgo := validateImagesGo_first_bad images 0 k hk
      (fun j hj => by
        have hb := hbufs (images.get ⟨j, hj.trans hk⟩) (images.get_mem _ _)
        have hf := hprev j hj
        simp only [goodInput, Bool.and_eq_true, decide_eq_true_eq]
        exact ⟨hb, hf⟩)
      (hbufs (images.get ⟨k, hk⟩) (images.get_mem _ _)) hbad
    simp only [imagesToPdfCall, validateImages, if_neg hlen, hgo]
    rw [show 0 + k + 1 = k + 1 by omega]
  · intro images k hk e hgood hprev hfail
    have hlen : images.length ≠ 0 := Nat.pos_iff_ne_zero.mp (Nat.lt_of_le_of_lt (Nat.zero_le k) hk)
    have hval : validateImagesGo images 0 = .ok () := validateImagesGo_all_ok images 0 hgood
    have hpr := processImages_first_fail env images ⟨[]⟩ 0 k hk e hprev hfail
    simp only [imagesToPdfCall, validateImages, if_neg hlen, hval, convertImagesToPdf, hpr]
    rw [show 0 + k + 1 = k + 1 by omega]

def imgBadFmt : ImageData := ⟨[1], "image/bmp", "c.bmp"⟩

/-- pdf-lib environment whose PNG decoder fails: for the embed-failure
witness. -/
def pEnvFail : PdfLibEnv :=
  ⟨fun _ => .error "bad png data", fun b => .ok (b.getD 0 0, b.getD 1 0)⟩

/-- C6 witness: the three error paths at concrete inputs — empty set; a
second image of type image/bmp; a first image whose PNG embed fails. -/
theorem C6_composer_error_paths_witness :
    imagesToPdfCall pEnvHead [] = .error "At least one image is required"
    ∧ imagesToPdfCall pEnvHead [imgA, imgBadFmt] =
        .error (unsupportedFormatMsg 2 "c.bmp" "image/bmp")
    ∧ unsupportedFormatMsg 2 "c.bmp" "image/bmp" =
        "Image 2 (c.bmp) has unsupported format: image/bmp"
    ∧ imagesToPdfCall pEnvFail [imgA] =
        .error (processErrMsg 1 "a.png" ("Failed to embed image: " ++ "bad png data"))
    ∧ processErrMsg 1 "a.png" ("Failed to embed image: " ++ "bad png data") =
        "Failed to process image 1 (a.png): Failed to embed image: bad png data" := by
  refine ⟨(C6_composer_error_paths pEnvHead).1.1, ?_, rfl, ?_, rfl⟩
  · exact (C6_composer_error_paths pEnvHead).2.1 [imgA, imgBadFmt] 1 (by decide)
      (by decide) (fun j hj => by interval_cases j ; rfl) rfl
  · exact (C6_composer_error_paths pEnvFail).2.2 [imgA] 0 (by decide) "bad png data"
      (by decide) (fun j hj => absurd hj (Nat.not_lt_zero j)) rfl

/-! ## Filenames

Template-literal filenames of the converter service, and the injectivity
facts that make extracted-image filenames within one page pairwise
distinct. -/

def mkImageFilename (pageNum idx : Nat) (fmt : String) : String :=
  "page-" ++ natRepr pageNum ++ "-image-" ++ natRepr idx ++ "." ++ fmt

def mkPageImageName (pageNum : Nat) (fmt : String) : String :=
  "page-" ++ natRepr pageNum ++ "." ++ fmt

theorem string_data_inj (a b : String) (h : a.data = b.data) : a = b :=
  congrArg String.mk h

theorem append_dot_inj (xs : List Char) :
    ∀ (ys u v : List Char), '.' ∉ xs → '.' ∉ ys →
      xs ++ '.' :: u = ys ++ '.' :: v → xs = ys ∧ u = v := by
  induction xs with
  | nil =>
    intro ys u v _ hys h
    cases ys with
    | nil => simpa using h
    | cons b ys' =>
      simp only [List.nil_append, List.cons_append, List.cons.injEq] at h
      exact absurd (h.1 ▸ List.mem_cons_self b ys') hys
  | cons a xs' ih =>
    intro ys u v hxs hys h
    cases ys with
    | nil =>
      simp only [List.cons_append, List.nil_append, List.cons.injEq] at h
      exact absurd (h.1 ▸ List.mem_cons_self a xs') hxs
    | cons b ys' =>
      simp only [List.cons_append, List.cons.injEq] at h
      have hxs' : '.' ∉ xs' := fun hm => hxs (List.mem_cons_of_mem a hm)
      have hys' : '.' ∉ ys' := fun hm => hys (List.mem_cons_of_mem b hm)
      obtain ⟨h1, h2⟩ := ih ys' u v hxs' hys' h.2
      exact ⟨by rw [h.1, h1], h2⟩

theorem mkImageFilename_inj (p i j : Nat) (f g : String)
    (h : mkImageFilename p i f = mkImageFilename p j g) : i = j ∧ f = g := by
  have hd := congrArg String.data h
  simp only [mkImageFilename, str_data_append, List.append_assoc] at hd
  rw [show ("." : String).data ++ f.data = '.' :: f.data from rfl,
    show ("." : String).data ++ g.data = '.' :: g.data from rfl] at hd
  rw [← List.append_assoc, ← List.append_assoc, ← List.append_assoc,
    ← List.append_assoc, ← List.append_assoc, ← List.append_assoc] at hd
  have hnodotL : '.' ∉ (("page-" : String).data ++ (natRepr p).data
      ++ ("-image-" : String).data ++ (natRepr i).data) := by
    simp only [List.append_assoc, List.mem_append]
    rintro (hm | hm | hm | hm)
    · revert hm; decide
    · exact natRepr_no_dot p hm
    · revert hm; decide
    · exact natRepr_no_dot i hm
  have hnodotR : '.' ∉ (("page-" : String).data ++ (natRepr p).data
      ++ ("-image-" : String).data ++ (natRepr j).data) := by
    simp only [List.append_assoc, List.mem_append]
    rintro (hm | hm | hm | hm)
    · revert hm; decide
    · exact natRepr_no_dot p hm
    · revert hm; decide
    · exact natRepr_no_dot j hm
  have hmain := append_dot_inj _ _ _ _ hnodotL hnodotR hd
  have hfg : f = g := string_data_inj f g hmain.2
  have hpre := hmain.1
  simp only [List.append_assoc] at hpre
  have hij : (natRepr i).data = (natRepr j).data :=
    List.append_cancel_left (List.append_cancel_left (List.append_cancel_left hpre))
  exact ⟨natRepr_injective (string_data_inj _ _ hij), hfg⟩

/-! ## pdfConverter.service — image extraction and full conversion

A page exposes its positioned text items, its operator list, and its named
resource table `objs` (resolution can produce an object, a null/absent
object, or throw).  `extractImagesFromPage` walks the operator list, keeping
a 1-based `imageIndex` that advances only on successful conversion; a thrown
resolution or conversion failure is logged (`console.error`) and that
instruction alone is skipped.  `extractPdfContent` and `convertPdfToImages`
loop over pages 1..numPages in order. -/

inductive PdfOp
  | paintImageXObject (name : String)
  | paintXObject (name : String)
  | paintImageMaskXObject (name : String)
  | other

inductive ResolveResult
  | found (o : ImageObj)
  | nullObj
  | raise (msg : String)

structure PdfJsPage where
  textItems : List TextItem
  ops : List PdfOp
  objs : String → ResolveResult

structure PdfJsDoc where
  pages : List PdfJsPage

structure ExtractedImage where
  buffer : List Nat
  filename : String
  format : String
deriving DecidableEq

structure ExtractedPageContent where
  pageNumber : Nat
  textContent : String
  images : List ExtractedImage
deriving DecidableEq

def paintOpName : PdfOp → Option String
  | .paintImageXObject name => some name
  | .paintXObject name => some name
  | .paintImageMaskXObject name => some name
  | .other => none

def failLogMsg (idx pageNum : Nat) (msg : String) : String :=
  "Failed to extract image " ++ natRepr idx ++ " from page " ++ natRepr pageNum ++ ": " ++ msg

def extractImagesGo (env : CanvasEnv) (objs : String → ResolveResult) (pageNum : Nat) :
    List PdfOp → Nat → List ExtractedImage × List String
  | [], _ => ([], [])
  | op :: rest, idx =>
    match paintOpName op with
    | none => extractImagesGo env objs pageNum rest idx
    | some name =>
      match objs name with
      | .nullObj => extractImagesGo env objs pageNum rest idx
      | .raise m =>
        ((extractImagesGo env objs pageNum rest idx).1,
          failLogMsg idx pageNum m :: (extractImagesGo env objs pageNum rest idx).2)
      | .found o =>
        match convertImageObjToBuffer env o with
        | .ok bf =>
          (⟨bf.1, mkImageFilename pageNum idx bf.2, bf.2⟩
              :: (extractImagesGo env objs pageNum rest (idx + 1)).1,
            (extractImagesGo env objs pageNum rest (idx + 1)).2)
        | .error m =>
          ((extractImagesGo env objs pageNum rest idx).1,
            failLogMsg idx pageNum m :: (extractImagesGo env objs pageNum rest idx).2)

def extractImagesFromPage (env : CanvasEnv) (page : PdfJsPage) (pageNum : Nat) :
    List ExtractedImage × List String :=
  extractImagesGo env page.objs pageNum page.ops 1

def extractPagesGo (env : CanvasEnv) : List PdfJsPage → Nat → List ExtractedPageContent
  | [], _ => []
  | pg :: rest, n =>
    ⟨n, extractTextFromPage pg.textItems, (extractImagesFromPage env pg n).1⟩
      :: extractPagesGo env rest (n + 1)

structure LoadEnv where
  loadPdf : List Nat → Except String PdfJsDoc

def extractPdfContent (lenv : LoadEnv) (env : CanvasEnv) (pdfBuffer : List Nat) :
    Except String (List ExtractedPageContent) :=
  match lenv.loadPdf pdfBuffer with
  | .error e => .error ("PDF content extraction failed: " ++ ("Failed to load PDF: " ++ e))
  | .ok doc => .ok (extractPagesGo env doc.pages 1)

structure ConvertedPage where
  pageNumber : Nat
  buffer : List Nat
  filename : String
deriving DecidableEq

structure RenderEnv where
  renderPage : PdfJsPage → String → ℚ → ℚ → Except String (List Nat)

def convertPagesGo (renv : RenderEnv) (fmt : String) (scale quality : ℚ) :
    List PdfJsPage → Nat → Except String (List ConvertedPage)
  | [], _ => .ok []
  | pg :: rest, n =>
    match renv.renderPage pg fmt scale quality with
    | .error e => .error e
    | .ok buf =>
      match convertPagesGo renv fmt scale quality rest (n + 1) with
      | .error e => .error e
      | .ok pages => .ok (⟨n, buf, mkPageImageName n fmt⟩ :: pages)

def defaultScale : ℚ := 2

def defaultQuality : ℚ := 19 / 20

def convertPdfToImages (lenv : LoadEnv) (renv : RenderEnv) (pdfBuffer : List Nat)
    (fmt : String) (scaleOpt qualityOpt : Option ℚ) : Except String (List ConvertedPage) :=
  let scale := scaleOpt.getD defaultScale
  let quality := qualityOpt.getD defaultQuality
  match lenv.loadPdf pdfBuffer with
  | .error e => .error ("PDF conversion failed: " ++ ("Failed to load PDF: " ++ e))
  | .ok doc =>
    match convertPagesGo renv fmt scale quality doc.pages 1 with
    | .error e => .error ("PDF conversion failed: " ++ e)
    | .ok pages => .ok pages

/-- The format tag produced by the codec bridge is always `jpg` or `png`. -/
theorem convert_format_mem (env : CanvasEnv) (o : ImageObj) (bf : List Nat × String)
    (h : convertImageObjToBuffer env o = .ok bf) : bf.2 = "jpg" ∨ bf.2 = "png" := by
  unfold convertImageObjToBuffer at h
  by_cases hc : (o.data.isSome && o.kind == some 1 && jpegSoiCheck (o.data.getD [])) = true
  · rw [if_pos hc] at h
    cases h
    exact Or.inl rfl
  · rw [if_neg hc] at h
    cases henc : env.encodePng o.width o.height (copyPixels o.data o.width o.height) with
    | ok png =>
      rw [henc] at h
      cases h
      exact Or.inr rfl
    | error e =>
      rw [henc] at h
      simp at h

theorem extractImagesGo_shape (env : CanvasEnv) (objs : String → ResolveResult)
    (pageNum : Nat) (ops : List PdfOp) :
    ∀ idx : Nat, ∀ img ∈ (extractImagesGo env objs pageNum ops idx).1,
      ∃ k fmt, idx ≤ k ∧ (fmt = "jpg" ∨ fmt = "png")
        ∧ img.filename = mkImageFilename pageNum k fmt := by
  induction ops with
  | nil => intro idx img hmem; simp [extractImagesGo] at hmem
  | cons op rest ih =>
    intro idx img hmem
    cases hop : paintOpName op with
    | none =>
      simp only [extractImagesGo, hop] at hmem
      exact ih idx img hmem
    | some name =>
      cases hres : objs name with
      | nullObj =>
        simp only [extractImagesGo, hop, hres] at hmem
        exact ih idx img hmem
      | raise m =>
        simp only [extractImagesGo, hop, hres] at hmem
        exact ih idx img hmem
      | found o =>
        cases hconv : convertImageObjToBuffer env o with
        | error m =>
          simp only [extractImagesGo, hop, hres, hconv] at hmem
          exact ih idx img hmem
        | ok bf =>
          simp only [extractImagesGo, hop, hres, hconv, List.mem_cons] at hmem
          rcases hmem with rfl | hmem
          · exact ⟨idx, bf.2, le_refl idx, convert_format_mem env o bf hconv, rfl⟩
          · obtain ⟨k, fmt, hk, hf, he⟩ := ih (idx + 1) img hmem
            exact ⟨k, fmt, by omega, hf, he⟩

theorem extractImagesGo_filenames_nodup (env : CanvasEnv) (objs : String → ResolveResult)
    (pageNum : Nat) (ops : List PdfOp) :
    ∀ idx : Nat,
      ((extractImagesGo env objs pageNum ops idx).1.map (fun im => im.filename)).Nodup := by
  induction ops with
  | nil => intro idx; simp [extractImagesGo]
  | cons op rest ih =>
    intro idx
    cases hop : paintOpName op with
    | none => simp only [extractImagesGo, hop]; exact ih idx
    | some name =>
      cases hres : objs name with
      | nullObj => simp only [extractImagesGo, hop, hres]; exact ih idx
      | raise m => simp only [extractImagesGo, hop, hres]; exact ih idx
      | found o =>
        cases hconv : convertImageObjToBuffer env o with
        | error m => simp only [extractImagesGo, hop, hres, hconv]; exact ih idx
        | ok bf =>
          simp only [extractImagesGo, hop, hres, hconv, List.map_cons, List.nodup_cons]
          refine ⟨?_, ih (idx + 1)⟩
          intro hmem
          rcases List.mem_map.mp hmem with ⟨img, hintl, hfn⟩
          obtain ⟨k, fmt, hk, _, he⟩ := extractImagesGo_shape env objs pageNum rest (idx + 1) img hintl
          rw [he] at hfn
          have := (mkImageFilename_inj pageNum k idx fmt bf.2 hfn).1
          omega

theorem paintOpName_other : paintOpName PdfOp.other = none := rfl

/-- Single-instruction failure: a paint instruction whose resource resolution
throws, or resolves to an object whose conversion fails. -/
def opFailure (env : CanvasEnv) (objs : String → ResolveResult) (op : PdfOp) : Prop :=
  ∃ name, paintOpName op = some name ∧
    ((∃ m, objs name = .raise m)
      ∨ (∃ o m, objs name = .found o ∧ convertImageObjToBuffer env o = .error m))

theorem extractImagesGo_skip (env : CanvasEnv) (objs : String → ResolveResult)
    (pageNum : Nat) (ops : List PdfOp) :
    ∀ (j : Nat) (hj : j < ops.length) (idx : Nat),
      opFailure env objs (ops.get ⟨j, hj⟩) →
      (extractImagesGo env objs pageNum ops idx).1 =
        (extractImagesGo env objs pageNum (ops.set j .other) idx).1
      ∧ ∃ i m, failLogMsg i pageNum m ∈ (extractImagesGo env objs pageNum ops idx).2 := by
  induction ops with
  | nil => intro j hj; exact absurd hj (Nat.not_lt_zero j)
  | cons op rest ih =>
    intro j hj idx hfail
    cases j with
    | zero =>
      simp only [List.get] at hfail
      obtain ⟨name, hname, hcase⟩ := hfail
      rcases hcase with ⟨m, hres⟩ | ⟨o, m, hres, hconv⟩
      · simp only [List.set, extractImagesGo, hname, hres, paintOpName_other]
        exact ⟨trivial, idx, m, by simp⟩
      · simp only [List.set, extractImagesGo, hname, hres, hconv, paintOpName_other]
        exact ⟨trivial, idx, m, by simp⟩
    | succ j =>
      have hj' : j < rest.length := Nat.lt_of_succ_lt_succ hj
      have hfail' : opFailure env objs (rest.get ⟨j, hj'⟩) := by
        simpa [List.get] using hfail
      cases hop : paintOpName op with
      | none =>
        simp only [List.set, extractImagesGo, hop]
        exact ih j hj' idx hfail'
      | some name =>
        cases hres : objs name with
        | nullObj =>
          simp only [List.set, extractImagesGo, hop, hres]
          exact ih j hj' idx hfail'
        | raise m =>
          simp only [List.set, extractImagesGo, hop, hres]
          obtain ⟨heq, i2, m2, hmem⟩ := ih j hj' idx hfail'
          exact ⟨heq, i2, m2, by simp [hmem]⟩
        | found o =>
          cases hconv : convertImageObjToBuffer env o with
          | error m =>
            simp only [List.set, extractImagesGo, hop, hres, hconv]
            obtain ⟨heq, i2, m2, hmem⟩ := ih j hj' idx hfail'
            exact ⟨heq, i2, m2, by simp [hmem]⟩
          | ok bf =>
            simp only [List.set, extractImagesGo, hop, hres, hconv]
            obtain ⟨heq, i2, m2, hmem⟩ := ih j hj' (idx + 1) hfail'
            exact ⟨by rw [heq], i2, m2, hmem⟩

theorem extractPagesGo_spec (env : CanvasEnv) (pgs : List PdfJsPage) :
    ∀ n : Nat,
      ((extractPagesGo env pgs n).map (fun e => e.pageNumber) = List.range' n pgs.length)
      ∧ ((extractPagesGo env pgs n).map (fun e => e.textContent)
          = pgs.map (fun pg => extractTextFromPage pg.textItems))
      ∧ (∀ e ∈ extractPagesGo env pgs n, (e.images.map (fun im => im.filename)).Nodup) := by
  induction pgs with
  | nil => intro n; refine ⟨rfl, rfl, by simp [extractPagesGo]⟩
  | cons pg rest ih =>
    intro n
    obtain ⟨h1, h2, h3⟩ := ih (n + 1)
    refine ⟨?_, ?_, ?_⟩
    · simp only [extractPagesGo, List.map_cons, List.length_cons, List.range'_succ, h1]
    · simp only [extractPagesGo, List.map_cons, h2]
    · intro e hmem
      rcases List.mem_cons.mp hmem with rfl | hmem

      · exact extractImagesGo_filenames_nodup env pg.objs n pg.ops 1
      · exact h3 e hmem

theorem convertPagesGo_spec (renv : RenderEnv) (fmt : String) (scale quality : ℚ)
    (pgs : List PdfJsPage) :
    ∀ (n : Nat) (pages : List ConvertedPage),
      convertPagesGo renv fmt scale quality pgs n = .ok pages →
      pages.map (fun p => p.pageNumber) = List.range' n pgs.length
      ∧ pages.map (fun p => p.filename)
          = (List.range' n pgs.length).map (fun k => mkPageImageName k fmt) := by
  induction pgs with
  | nil =>
    intro n pages h
    cases h
    exact ⟨rfl, rfl⟩
  | cons pg rest ih =>
    intro n pages h
    cases hr : renv.renderPage pg fmt scale quality with
    | error e => rw [convertPagesGo, hr] at h; simp at h
    | ok buf =>
      rw [convertPagesGo, hr] at h
      cases hrec : convertPagesGo renv fmt scale quality rest (n + 1) with
      | error e => rw [hrec] at h; simp at h
      | ok tail =>
        rw [hrec] at h
        cases h
        obtain ⟨h1, h2⟩ := ih (n + 1) tail hrec
        refine ⟨?_, ?_⟩
        · simp only [List.map_cons, List.length_cons, List.range'_succ, h1]
        · simp only [List.map_cons, List.length_cons, List.range'_succ, h2]

/-- C7: a resolution or conversion failure of a single paint-image
instruction is logged and skips only that image: the page's extracted images
equal those of the same walk with the failing instruction removed (replaced
by a non-paint instruction), a failure log entry is emitted, and every page
still contributes its entry — page numbers and text content of all pages are
produced independently of any per-image failures. -/
theorem C7_single_image_failure_skipped :
    (∀ (env : CanvasEnv) (objs : String → ResolveResult) (pageNum : Nat)
        (ops : List PdfOp) (j : Nat) (hj : j < ops.length) (idx : Nat),
      opFailure env objs (ops.get ⟨j, hj⟩) →
      (extractImagesGo env objs pageNum ops idx).1 =
        (extractImagesGo env objs pageNum (ops.set j .other) idx).1
      ∧ ∃ i m, failLogMsg i pageNum m ∈ (extractImagesGo env objs pageNum ops idx).2)
    ∧ (∀ (env : CanvasEnv) (pgs : List PdfJsPage) (n : Nat),
      ((extractPagesGo env pgs n).map (fun e => e.pageNumber) = List.range' n pgs.length)
      ∧ (extractPagesGo env pgs n).map (fun e => e.textContent)
          = pgs.map (fun pg => extractTextFromPage pg.textItems)) :=
  ⟨fun env objs pageNum ops j hj idx h => extractImagesGo_skip env objs pageNum ops j hj idx h,
   fun env pgs n => ⟨(extractPagesGo_spec env pgs n).1, (extractPagesGo_spec env pgs n).2.1⟩⟩

/-- Resource table used by witnesses: "Bad" throws on resolution, "Good"
resolves to a passthrough JPEG, anything else is a null object. -/
def objsW : String → ResolveResult :=
  fun name =>
    if name = "Bad" then .raise "missing object"
    else if name = "Good" then .found ⟨1, 1, some 1, some [255, 216, 255, 224]⟩
    else .nullObj

def opsW : List PdfOp := [.paintImageXObject "Bad", .paintImageXObject "Good"]

/-- C7 witness: on a page whose first paint instruction fails to resolve, the
walk still extracts the second image, the result equals the walk without the
failing instruction, and the failure is logged. -/
theorem C7_single_image_failure_skipped_witness :
    opFailure cEnvId objsW (opsW.get ⟨0, by decide⟩)
    ∧ ((extractImagesGo cEnvId objsW 3 opsW 1).1 =
        (extractImagesGo cEnvId objsW 3 (opsW.set 0 .other) 1).1
      ∧ ∃ i m, failLogMsg i 3 m ∈ (extractImagesGo cEnvId objsW 3 opsW 1).2)
    ∧ (extractImagesGo cEnvId objsW 3 opsW 1).1 =
        [⟨[255, 216, 255, 224], mkImageFilename 3 1 "jpg", "jpg"⟩] :=
  ⟨⟨"Bad", rfl, Or.inl ⟨"missing object", rfl⟩⟩,
   C7_single_image_failure_skipped.1 cEnvId objsW 3 opsW 0 (by decide) 1
     ⟨"Bad", rfl, Or.inl ⟨"missing object", rfl⟩⟩,
   rfl⟩

/-- C8: for every convert call that returns pages, the page numbers are
exactly `1, 2, …, numPages` in that order (1-based, strictly increasing,
matching source page order) with filenames `page-N.{fmt}` in the same order;
for every extract call that returns entries, the entries' page numbers are
likewise `1 … numPages` in source order and within each entry the extracted
image filenames are pairwise distinct. -/
theorem C8_ordering_and_unique_names :
    (∀ (lenv : LoadEnv) (renv : RenderEnv) (buf : List Nat) (fmt : String)
        (scaleOpt qualityOpt : Option ℚ) (doc : PdfJsDoc) (pages : List ConvertedPage),
      lenv.loadPdf buf = .ok doc →
      convertPdfToImages lenv renv buf fmt scaleOpt qualityOpt = .ok pages →
      pages.map (fun p => p.pageNumber) = List.range' 1 doc.pages.length
      ∧ pages.map (fun p => p.filename)
          = (List.range' 1 doc.pages.length).map (fun k => mkPageImageName k fmt))
    ∧ (∀ (lenv : LoadEnv) (cenv : CanvasEnv) (buf : List Nat) (doc : PdfJsDoc)
        (entries : List ExtractedPageContent),
      lenv.loadPdf buf = .ok doc →
      extractPdfContent lenv cenv buf = .ok entries →
      entries.map (fun e => e.pageNumber) = List.range' 1 doc.pages.length
      ∧ ∀ e ∈ entries, (e.images.map (fun im => im.filename)).Nodup) := by
  constructor
  · intro lenv renv buf fmt scaleOpt qualityOpt doc pages hload hconv
    simp only [convertPdfToImages, hload] at hconv
    cases hc : convertPagesGo renv fmt (scaleOpt.getD defaultScale)
        (qualityOpt.getD defaultQuality) doc.pages 1 with
    | error e => rw [hc] at hconv; simp at hconv
    | ok p2 =>
      rw [hc] at hconv
      have hpages : p2 = pages := by injection hconv
      subst hpages
      exact convertPagesGo_spec renv fmt _ _ doc.pages 1 p2 hc
  · intro lenv cenv buf doc entries hload hext
    simp only [extractPdfContent, hload] at hext
    cases hext
    exact ⟨(extractPagesGo_spec cenv doc.pages 1).1,
      (extractPagesGo_spec cenv doc.pages 1).2.2⟩

def pgW1 : PdfJsPage := ⟨[.strItem "hi" 0], [], fun _ => .nullObj⟩

def pgW2 : PdfJsPage := ⟨[], [.paintImageXObject "Good"], objsW⟩

def docW : PdfJsDoc := ⟨[pgW1, pgW2]⟩

def lenvW : LoadEnv := ⟨fun _ => .ok docW⟩

def renvW : RenderEnv := ⟨fun _ _ _ _ => .ok [7]⟩

def entriesW : List ExtractedPageContent :=
  [⟨1, "hi", []⟩, ⟨2, "", [⟨[255, 216, 255, 224], mkImageFilename 2 1 "jpg", "jpg"⟩]⟩]

/-- C8 witness: the ordering and uniqueness facts at a concrete two-page
document. -/
theorem C8_ordering_and_unique_names_witness :
    lenvW.loadPdf [37] = .ok docW
    ∧ convertPdfToImages lenvW renvW [37] "png" none none =
        .ok [⟨1, [7], mkPageImageName 1 "png"⟩, ⟨2, [7], mkPageImageName 2 "png"⟩]
    ∧ ([⟨1, [7], mkPageImageName 1 "png"⟩, ⟨2, [7], mkPageImageName 2 "png"⟩]
        : List ConvertedPage).map (fun p => p.pageNumber) = List.range' 1 docW.pages.length
    ∧ extractPdfContent lenvW cEnvId [37] = .ok entriesW
    ∧ entriesW.map (fun e => e.pageNumber) = List.range' 1 docW.pages.length
    ∧ ∀ e ∈ entriesW, (e.images.map (fun im => im.filename)).Nodup := by
  have h1 := C8_ordering_and_unique_names.1 lenvW renvW [37] "png" none none docW
    [⟨1, [7], mkPageImageName 1 "png"⟩, ⟨2, [7], mkPageImageName 2 "png"⟩] rfl rfl
  have h2 := C8_ordering_and_unique_names.2 lenvW cEnvId [37] docW entriesW rfl rfl
  exact ⟨rfl, rfl, h1.1, rfl, h2.1, h2.2⟩

/-! ## pdfToDocx.service — Document Reconstructor (`buildDocxContent`)

Per extracted page, in order: a page-label run when the document has more
than one page; the text content split on line breaks into trimmed paragraph
runs (blank lines become spacing-only paragraphs); when `includeImages`, one
image paragraph per image whose embed succeeds (embed failures are logged and
skipped); and, when `preservePageBreaks` and the page is not the last, one
explicit page break.  The docx library's image embedding enters as the
environment `DocxEnv`. -/

inductive DocxPara
  | pageLabel (n : Nat)
  | textRun (s : String)
  | emptyLine
  | imagePara (bytes : List Nat)
  | pageBreak

structure DocxEnv where
  embedImage : List Nat → Except String Unit

def isPageBreak : DocxPara → Bool
  | .pageBreak => true
  | _ => false

def convertTextToParagraphs (textContent : String) : List DocxPara :=
  (textContent.splitOn "\n").map (fun line =>
    if line.trim.length = 0 then .emptyLine else .textRun line.trim)

def buildPageParas (denv : DocxEnv) (includeImages : Bool) (total : Nat)
    (pg : ExtractedPageContent) : List DocxPara :=
  (if 1 < total then [.pageLabel pg.pageNumber] else [])
  ++ (if 0 < pg.textContent.trim.length then convertTextToParagraphs pg.textContent else [])
  ++ (if includeImages then
        pg.images.filterMap (fun im =>
          match denv.embedImage im.buffer with
          | .ok _ => some (.imagePara im.buffer)
          | .error _ => none)
      else [])

def buildDocxGo (denv : DocxEnv) (includeImages preservePageBreaks : Bool) (total : Nat) :
    List ExtractedPageContent → Nat → List DocxPara
  | [], _ => []
  | pg :: rest, i =>
    buildPageParas denv includeImages total pg
    ++ (if preservePageBreaks ∧ i < total - 1 then [.pageBreak] else [])
    ++ buildDocxGo denv includeImages preservePageBreaks total rest (i + 1)

def buildDocxContent (denv : DocxEnv) (extractedContent : List ExtractedPageContent)
    (includeImages preservePageBreaks : Bool) : List DocxPara :=
  buildDocxGo denv includeImages preservePageBreaks extractedContent.length
    extractedContent 0

theorem buildPageParas_no_break (denv : DocxEnv) (incl : Bool) (total : Nat)
    (pg : ExtractedPageContent) :
    ∀ para ∈ buildPageParas denv incl total pg, isPageBreak para = false := by
  intro para hmem
  simp only [buildPageParas, List.mem_append] at hmem
  rcases hmem with (h | h) | h
  · by_cases ht : 1 < total
    · simp only [if_pos ht, List.mem_singleton] at h
      subst h
      rfl
    · simp [ht] at h
  · by_cases htxt : 0 < pg.textContent.trim.length
    · simp only [if_pos htxt, convertTextToParagraphs] at h
      rcases List.mem_map.mp h with ⟨line, _, rfl⟩
      by_cases hl : line.trim.length = 0 <;> simp [hl, isPageBreak]
    · simp [htxt] at h
  · cases incl with
    | false => simp at h
    | true =>
      simp only [if_pos] at h
      rcases List.mem_filterMap.mp h with ⟨im, _, heq⟩
      cases hemb : denv.embedImage im.buffer with
      | ok u => rw [hemb] at heq; cases heq; rfl
      | error e => rw [hemb] at heq; cases heq

theorem buildDocxGo_break_count (denv : DocxEnv) (incl : Bool) (total : Nat) :
    ∀ (pages : List ExtractedPageContent) (i : Nat), i + pages.length = total →
      List.countP isPageBreak (buildDocxGo denv incl true total pages i) = total - 1 - i := by
  intro pages
  induction pages with
  | nil =>
    intro i hi
    simp only [buildDocxGo, List.countP_nil]
    simp only [List.length_nil] at hi
    omega
  | cons pg rest ih =>
    intro i hi
    simp only [List.length_cons] at hi
    have hrec := ih (i + 1) (by omega)
    simp only [buildDocxGo, List.countP_append, hrec]
    have h0 : List.countP isPageBreak (buildPageParas denv incl total pg) = 0 :=
      List.countP_eq_zero.mpr (fun a ha => by
        simp [buildPageParas_no_break denv incl total pg a ha])
    rw [h0]
    by_cases hlt : i < total - 1
    · rw [if_pos ⟨trivial, hlt⟩]
      rw [show List.countP isPageBreak [DocxPara.pageBreak] = 1 from rfl]
      omega
    · rw [if_neg (fun hc => hlt hc.2)]
      rw [show List.countP isPageBreak ([] : List DocxPara) = 0 from rfl]
      omega

/-- C9: reconstruction with `insertPageBreaks = true` emits exactly
`P - 1` explicit page breaks for `P` extracted pages, whatever the image
embedding environment and the includeImages flag; in particular any 3
extracted pages yield exactly 2 page breaks. -/
theorem C9_page_break_count :
    (∀ (denv : DocxEnv) (incl : Bool) (extractedContent : List ExtractedPageContent),
      List.countP isPageBreak (buildDocxContent denv extractedContent incl true) =
        extractedContent.length - 1)
    ∧ (∀ (denv : DocxEnv) (incl : Bool) (p1 p2 p3 : ExtractedPageContent),
      List.countP isPageBreak (buildDocxContent denv [p1, p2, p3] incl true) = 2) := by
  have hmain : ∀ (denv : DocxEnv) (incl : Bool) (ec : List ExtractedPageContent),
      List.countP isPageBreak (buildDocxContent denv ec incl true) = ec.length - 1 := by
    intro denv incl ec
    have := buildDocxGo_break_count denv incl ec.length ec 0 (by omega)
    simpa [buildDocxContent] using this
  exact ⟨hmain, fun denv incl p1 p2 p3 => by simpa using hmain denv incl [p1, p2, p3]⟩

/-! ## fileValidator.ts

Magic-byte table, detection, extension handling and the combined
`validateFile` check, embedded with the same rule order and the same
short-circuit structure as the source. -/

structure MagicByteRule where
  bytes : List Nat
  offset : Nat

structure FileTypeDefinition where
  mimeTypes : List String
  extensions : List String
  magicBytes : List MagicByteRule
  description : String

def pdfDef : FileTypeDefinition :=
  ⟨["application/pdf"], [".pdf"], [⟨[0x25, 0x50, 0x44, 0x46, 0x2D], 0⟩], "PDF Document"⟩

def pngDef : FileTypeDefinition :=
  ⟨["image/png"], [".png"], [⟨[0x89, 0x50, 0x4E, 0x47, 0x0D, 0x0A, 0x1A, 0x0A], 0⟩], "PNG Image"⟩

def jpegDef : FileTypeDefinition :=
  ⟨["image/jpeg", "image/jpg"], [".jpg", ".jpeg"],
    [⟨[0xFF, 0xD8, 0xFF, 0xE0], 0⟩, ⟨[0xFF, 0xD8, 0xFF, 0xE1], 0⟩,
      ⟨[0xFF, 0xD8, 0xFF, 0xE2], 0⟩, ⟨[0xFF, 0xD8, 0xFF, 0xE3], 0⟩,
      ⟨[0xFF, 0xD8, 0xFF, 0xE8], 0⟩, ⟨[0xFF, 0xD8, 0xFF, 0xDB], 0⟩,
      ⟨[0xFF, 0xD8, 0xFF], 0⟩],
    "JPEG Image"⟩

def fileTypeDefinitions : List (String × FileTypeDefinition) :=
  [("pdf", pdfDef), ("png", pngDef), ("jpeg", jpegDef)]

def lookupDef (k : String) : Option FileTypeDefinition :=
  fileTypeDefinitions.lookup k

def matchesMagicBytes (buffer : List Nat) (rule : MagicByteRule) : Bool :=
  if buffer.length < rule.offset + rule.bytes.length then false
  else
    (List.range rule.bytes.length).all
      (fun i => buffer.getD (rule.offset + i) 0 == rule.bytes.getD i 0)

def detectFileTypeGo : List (String × FileTypeDefinition) → List Nat → Option String
  | [], _ => none
  | (key, d) :: rest, buf =>
    if d.magicBytes.any (fun r => matchesMagicBytes buf r) then some key
    else detectFileTypeGo rest buf

def detectFileType (buf : List Nat) : Option String :=
  detectFileTypeGo fileTypeDefinitions buf

def lastDotIdxGo : List Char → Nat → Option Nat → Option Nat
  | [], _, acc => acc
  | c :: cs, i, acc => lastDotIdxGo cs (i + 1) (if c = '.' then some i else acc)

/-- `filename.lastIndexOf('.')` then the substring-from-dot, lowercased;
empty when there is no dot or the dot is the last character. -/
def getExtension (filename : String) : String :=
  match lastDotIdxGo filename.data 0 none with
  | none => ""
  | some i =>
    if i = filename.length - 1 then ""
    else String.mk ((filename.data.drop i).map Char.toLower)

structure ValidationResult where
  isValid : Bool
  detectedType : Option String
  errors : List String
deriving DecidableEq

/-- JS `toLowerCase()` over the characters (ASCII-faithful). -/
def strToLower (s : String) : String :=
  String.mk (s.data.map Char.toLower)

def mimeTypesOf (k : String) : List String :=
  match lookupDef k with
  | some d => d.mimeTypes
  | none => []

def extensionsOf (k : String) : List String :=
  match lookupDef k with
  | some d => d.extensions
  | none => []

def descriptionOf (k : String) : String :=
  match lookupDef k with
  | some d => d.description
  | none => k

def validateFile (buffer : List Nat) (filename mimeType : String)
    (allowedTypes : List String) : ValidationResult :=
  if buffer.length = 0 then
    ⟨false, none, ["File is empty or invalid"]⟩
  else if buffer.length < 8 then
    ⟨false, none, ["File is too small to be valid"]⟩
  else
    let detectedType := detectFileType buffer
    let errs1 : List String :=
      match detectedType with
      | none =>
        ["Unable to determine file type from content. File may be corrupted or unsupported."]
      | some t =>
        if allowedTypes.contains t then []
        else
          ["File content is " ++ descriptionOf t ++ ", but only "
            ++ String.intercalate ", " (allowedTypes.map descriptionOf)
            ++ " files are allowed"]
    let allowedMimeTypes := allowedTypes.flatMap mimeTypesOf
    let errs2 : List String :=
      if allowedMimeTypes.contains (strToLower mimeType) then []
      else
        ["Invalid MIME type: " ++ mimeType ++ ". Allowed types: "
          ++ String.intercalate ", " allowedMimeTypes]
    let extension := getExtension filename
    let allowedExtensions := allowedTypes.flatMap extensionsOf
    let errs3 : List String :=
      if extension ≠ "" ∧ ¬ allowedExtensions.contains extension = true then
        ["Invalid file extension: " ++ extension ++ ". Allowed extensions: "
          ++ String.intercalate ", " allowedExtensions]
      else []
    let errs4 : List String :=
      match detectedType with
      | some t =>
        if allowedTypes.contains t then
          (if ¬ (mimeTypesOf t).contains (strToLower mimeType) = true then
            ["MIME type mismatch: File content indicates " ++ descriptionOf t
              ++ ", but MIME type is " ++ mimeType]
          else [])
          ++ (if extension ≠ "" ∧ ¬ (extensionsOf t).contains extension = true then
            ["Extension mismatch: File content indicates " ++ descriptionOf t
              ++ ", but extension is " ++ extension]
          else [])
        else []
      | none => []
    let errors := errs1 ++ errs2 ++ errs3 ++ errs4
    ⟨errors.isEmpty, detectedType, errors⟩

theorem lastDotIdxGo_no_dot (l : List Char) :
    ∀ (i : Nat) (acc : Option Nat), '.' ∉ l → lastDotIdxGo l i acc = acc := by
  induction l with
  | nil => intro i acc _; rfl
  | cons c cs ih =>
    intro i acc hno
    have hc : ¬ c = '.' := fun h => hno (by simp [h])
    simp only [lastDotIdxGo, if_neg hc]
    exact ih (i + 1) acc (fun hm => hno (List.mem_cons_of_mem c hm))

theorem getExtension_no_dot (filename : String) (h : '.' ∉ filename.data) :
    getExtension filename = "" := by
  unfold getExtension
  rw [lastDotIdxGo_no_dot filename.data 0 none h]

theorem lastDotIdxGo_append_dot (l : List Char) :
    ∀ (i : Nat) (acc : Option Nat),
      lastDotIdxGo (l ++ ['.']) i acc = some (i + l.length) := by
  induction l with
  | nil => intro i acc; simp [lastDotIdxGo]
  | cons c cs ih =>
    intro i acc
    show lastDotIdxGo (c :: (cs ++ ['.'])) i acc = some (i + (c :: cs).length)
    rw [lastDotIdxGo]
    rw [ih (i + 1) (if c = '.' then some i else acc)]
    simp only [List.length_cons]
    congr 1
    omega

theorem getExtension_trailing_dot (s : String) : getExtension (s ++ ".") = "" := by
  unfold getExtension
  rw [show (s ++ ".").data = s.data ++ ['.'] from rfl]
  rw [lastDotIdxGo_append_dot s.data 0 none]
  rw [show (s ++ ".").length = s.data.length + 1 from by
    show (s.data ++ ['.']).length = s.data.length + 1
    simp]
  simp

theorem validateFile_no_extension_ok (buffer : List Nat) (filename mimeType : String)
    (allowedTypes : List String) (t : String)
    (hext : getExtension filename = "")
    (hlen8 : 8 ≤ buffer.length)
    (hdet : detectFileType buffer = some t)
    (hallowed : allowedTypes.contains t = true)
    (hmime1 : (allowedTypes.flatMap mimeTypesOf).contains (strToLower mimeType) = true)
    (hmime2 : (mimeTypesOf t).contains (strToLower mimeType) = true) :
    validateFile buffer filename mimeType allowedTypes = ⟨true, some t, []⟩ := by
  have h1 : t ∈ allowedTypes := by simpa using hallowed
  have h2 : strToLower mimeType ∈ allowedTypes.flatMap mimeTypesOf := by simpa using hmime1
  have h3 : strToLower mimeType ∈ mimeTypesOf t := by simpa using hmime2
  unfold validateFile
  rw [if_neg (by omega), if_neg (by omega)]
  simp [hdet, hext, h1, h3]
  exact List.mem_flatMap.mp h2

/-- C10: when the uploaded filename has no extension, the extension checks of
`validateFile` are skipped entirely: `getExtension` returns the empty string
for a filename with no dot and for a filename ending in a dot, and with an
empty extension no extension-related error can be recorded — the upload is
accepted as soon as its magic bytes and MIME type pass, even though the
(absent) extension matches none of the allowed extensions. -/
theorem C10_missing_extension_skips_checks :
    (∀ filename : String, '.' ∉ filename.data → getExtension filename = "")
    ∧ (∀ s : String, getExtension (s ++ ".") = "")
    ∧ (∀ (buffer : List Nat) (filename mimeType : String) (allowedTypes : List String)
        (t : String),
        getExtension filename = "" →
        8 ≤ buffer.length →
        detectFileType buffer = some t →
        allowedTypes.contains t = true →
        (allowedTypes.flatMap mimeTypesOf).contains (strToLower mimeType) = true →
        (mimeTypesOf t).contains (strToLower mimeType) = true →
        validateFile buffer filename mimeType allowedTypes = ⟨true, some t, []⟩) :=
  ⟨getExtension_no_dot, getExtension_trailing_dot,
    fun buffer filename mimeType allowedTypes t hext hlen8 hdet hallowed hmime1 hmime2 =>
      validateFile_no_extension_ok buffer filename mimeType allowedTypes t
        hext hlen8 hdet hallowed hmime1 hmime2⟩

/-- C10 witness: a PDF-magic buffer uploaded as "document" (no extension)
with MIME type application/pdf passes validation with no errors. -/
theorem C10_missing_extension_skips_checks_witness :
    ('.' ∉ ("document" : String).data)
    ∧ getExtension "document" = ""
    ∧ validateFile [37, 80, 68, 70, 45, 49, 50, 51] "document" "application/pdf" ["pdf"] =
        ⟨true, some "pdf", []⟩ := by
  refine ⟨by decide, C10_missing_extension_skips_checks.1 "document" (by decide), ?_⟩
  exact C10_missing_extension_skips_checks.2.2 [37, 80, 68, 70, 45, 49, 50, 51]
    "document" "application/pdf" ["pdf"] "pdf"
    (C10_missing_extension_skips_checks.1 "document" (by decide))
    (by decide) (by decide) (by decide) (by decide) (by decide)

/-- C4 witness: the amended equality applied at the claim's own merging
example. -/
theorem C4_line_break_threshold_witness :
    (∀ p ∈ [(("a" : String), (100 : ℚ)), ("b", 501 / 5)], p.2 ≠ -1)
    ∧ extractTextFromPage
        ([(("a" : String), (100 : ℚ)), ("b", 501 / 5)].map
          (fun p => TextItem.strItem p.1 p.2)) =
        extractTextSpec [(("a" : String), (100 : ℚ)), ("b", 501 / 5)] :=
  ⟨by norm_num, C4_line_break_threshold.1 _ (by norm_num)⟩

end PdfBackend

namespace PdfBackend

theorem listLen_eq {α : Type} (l : List α) : ∀ acc : Nat, listLen l acc = acc + l.length := by
  induction l with
  | nil => intro acc; simp [listLen]
  | cons a t ih =>
    intro acc
    rw [listLen, ih]
    simp
    omega

theorem repBytes_length (n : Nat) : (repBytes n).length = 12 * n := by
  induction n with
  | zero => rfl
  | succ n ih =>
    show (markerBytes ++ repBytes n).length = 12 * (n + 1)
    rw [List.length_append, ih, show markerBytes.length = 12 from rfl]
    omega

theorem countPageMarkersF_repBytes :
    ∀ (n f acc : Nat), n ≤ f → countPageMarkersF f (repBytes n) acc = acc + n := by
  intro n
  induction n with
  | zero =>
    intro f acc _
    cases f with
    | zero => rfl
    | succ f => rfl
  | succ n ih =>
    intro f acc hf
    cases f with
    | zero => omega
    | succ f =>
      show countPageMarkersF (f + 1)
        (47 :: 84 :: 121 :: 112 :: 101 :: 32 :: 47 :: 80 :: 97 :: 103 :: 101 :: 32
          :: repBytes n) acc = acc + (n + 1)
      have hm : matchPageMarker
          (47 :: 84 :: 121 :: 112 :: 101 :: 32 :: 47 :: 80 :: 97 :: 103 :: 101 :: 32
            :: repBytes n) = some (repBytes n) := rfl
      simp only [countPageMarkersF, hm]
      rw [ih f (acc + 1) (by omega)]
      omega

theorem findCountMarker_block (rest : List Nat) :
    findCountMarker (markerBytes ++ rest) = findCountMarker rest := rfl

theorem findCountMarker_repBytes (n : Nat) : findCountMarker (repBytes n) = none := by
  induction n with
  | zero => rfl
  | succ n ih =>
    show findCountMarker (markerBytes ++ repBytes n) = none
    rw [findCountMarker_block]
    exact ih

theorem pdfBuffer150_def : pdfBuffer150 = repBytes 150 := rfl

theorem pdfBuffer150_listLen : listLen pdfBuffer150 0 = 1800 := by
  rw [pdfBuffer150_def, listLen_eq, repBytes_length]

theorem pdfBuffer150_content : bytesToContent pdfBuffer150 = pdfBuffer150 := by
  unfold bytesToContent
  rw [pdfBuffer150_listLen]
  rw [show min 1800 1048576 = 1800 by norm_num]
  rw [pdfBuffer150_def]
  rw [show (1800 : Nat) = (repBytes 150).length by rw [repBytes_length]]
  exact List.take_length (repBytes 150)

theorem pdfBuffer150_markerCount : countPageMarkers pdfBuffer150 = 150 := by
  rw [pdfBuffer150_def]
  unfold countPageMarkers
  rw [listLen_eq, repBytes_length]
  exact countPageMarkersF_repBytes 150 (0 + 12 * 150) 0 (by norm_num)

theorem pdfBuffer150_findCount : findCountMarker pdfBuffer150 = none := by
  rw [pdfBuffer150_def]
  exact findCountMarker_repBytes 150

theorem validatePdfComplexity_150 :
    validatePdfComplexity pdfBuffer150 100 =
      ⟨false, some 150,
        some ("PDF has too many pages (" ++ natRepr 150 ++ "). Maximum allowed is "
          ++ natRepr 100 ++ " pages.")⟩ := by
  simp only [validatePdfComplexity, pdfBuffer150_listLen, pdfBuffer150_content,
    pdfBuffer150_markerCount, pdfBuffer150_findCount]
  norm_num

/-- C1: the page-count pre-scan itself rejects a buffer with 150 page markers
against the 100-page ceiling (estimating 150 pages), but the check is wired
into no pipeline: the combined `dosProtection` chain and the full middleware
chains of the convert, extract, images-to-pdf and pdf-to-docx calls never run
it, so the rejection never happens on a conversion or extraction call. -/
theorem C1_complexity_check_unwired :
    (validatePdfComplexity pdfBuffer150 100).valid = false
    ∧ (validatePdfComplexity pdfBuffer150 100).pageCount = some 150
    ∧ MiddlewareStep.pdfComplexityCheck ∉ fullPipeline convertRouteChain
    ∧ MiddlewareStep.pdfComplexityCheck ∉ fullPipeline extractRouteChain
    ∧ MiddlewareStep.pdfComplexityCheck ∉ fullPipeline pdfToDocxRouteChain
    ∧ MiddlewareStep.pdfComplexityCheck ∉ fullPipeline imagesToPdfRouteChain
    ∧ MiddlewareStep.pdfComplexityCheck ∉ dosProtectionChain := by
  refine ⟨?_, ?_, by decide, by decide, by decide, by decide, by decide⟩
  · rw [validatePdfComplexity_150]
  · rw [validatePdfComplexity_150]

/-- C2: replaying the limiter on the trace where client "c" has two admitted
requests and the first completes normally (its response delivering `finish`
and then `close`, as the required Node runtime does): after the `finish`
event alone the stored count still equals the number of active requests (1),
but the `close` event runs the same non-idempotent cleanup again, leaving the
stored count at 0 while one admitted request is still active — the completing
request's slot is released twice, not exactly once. -/
theorem C2_cleanup_runs_twice :
    mapGet (limiterRun 5 (doubleCleanupTrace.take 3)).counts "c" = 1
    ∧ activeOf (limiterRun 5 (doubleCleanupTrace.take 3)) "c" = 1
    ∧ mapGet (limiterRun 5 doubleCleanupTrace).counts "c" = 0
    ∧ activeOf (limiterRun 5 doubleCleanupTrace) "c" = 1 := by
  refine ⟨by decide, by decide, by decide, by decide⟩

end PdfBackend
